import Mathlib

/-!
Verification development for the Sarah-Engine message pipeline
(listener.py / brain.py).  Python string routines are embedded as
executable functions over `List Char`; stateful code (the message store)
is embedded as explicit state passing over lists; the AI completion
backend and the HMAC primitive are abstracted as function parameters.
-/

namespace SarahEngine

/-! ## Basic text utilities (Python string semantics over `List Char`) -/

/-- The character classified as whitespace by Python `str.strip` and the
regex class backslash-s: space, tab, newline, carriage return, vertical
tab, form feed. -/
def pyWs (c : Char) : Bool :=
  c == ' ' || c == '\t' || c == '\n' || c == '\r' || c == Char.ofNat 11 || c == Char.ofNat 12

/-- Python `str.lower` (ASCII fragment, which is all the code relies on). -/
def lowerL (l : List Char) : List Char := l.map Char.toLower

/-- Boolean substring-prefix test, `pat` a prefix of `s`. -/
def listPre : List Char → List Char → Bool
  | [], _ => true
  | _ :: _, [] => false
  | c :: p, d :: s => c == d && listPre p s

/-- Boolean substring containment, Python `pat in s`. -/
def listContains (pat : List Char) : List Char → Bool
  | [] => pat.isEmpty
  | d :: s => listPre pat (d :: s) || listContains pat s

/-- Python `str.strip()`: drop leading and trailing whitespace. -/
def pystrip (l : List Char) : List Char :=
  ((l.dropWhile pyWs).reverse.dropWhile pyWs).reverse

/-- Python `str.strip()` lifted to `String`. -/
def pystripS (s : String) : String := String.mk (pystrip s.data)

/-- The last `n` elements of a list (Python slice `l[-n:]` for nonempty `l`). -/
def takeLast (n : Nat) (l : List α) : List α := l.drop (l.length - n)

theorem listPre_iff (pat s : List Char) : listPre pat s = true ↔ ∃ t, s = pat ++ t := by
  induction pat generalizing s with
  | nil => simp [listPre]
  | cons c p ih =>
    cases s with
    | nil => simp [listPre]
    | cons d t =>
      simp only [listPre, Bool.and_eq_true, beq_iff_eq, ih]
      constructor
      · rintro ⟨rfl, u, rfl⟩
        exact ⟨u, rfl⟩
      · rintro ⟨u, hu⟩
        cases hu
        exact ⟨rfl, u, rfl⟩

theorem listContains_iff (pat s : List Char) :
    listContains pat s = true ↔ ∃ a b, s = a ++ pat ++ b := by
  induction s with
  | nil =>
    simp only [listContains, List.isEmpty_iff]
    constructor
    · rintro rfl
      exact ⟨[], [], rfl⟩
    · rintro ⟨a, b, hab⟩
      rcases List.append_eq_nil.mp (List.append_eq_nil.mp hab.symm).1 with ⟨-, h2⟩
      exact h2
  | cons d t ih =>
    simp only [listContains, Bool.or_eq_true, listPre_iff, ih]
    constructor
    · rintro (⟨u, hu⟩ | ⟨a, b, rfl⟩)
      · exact ⟨[], u, by simp [hu]⟩
      · exact ⟨d :: a, b, rfl⟩
    · rintro ⟨a, b, hab⟩
      cases a with
      | nil => exact Or.inl ⟨b, by simpa using hab⟩
      | cons x a =>
        rw [List.cons_append, List.cons_append] at hab
        exact Or.inr ⟨a, b, (List.cons_eq_cons.mp hab).2⟩

/-! ## Data model (models.py): message records and the store -/

/-- One row of the `messages` table (the columns the pipeline uses). -/
structure MessageRecord where
  id : String
  fan_id : String
  role : String
  content : String
deriving DecidableEq, Repr

/-- The `messages` table, in `created_at` (insertion) order. -/
abbrev MessageStore := List MessageRecord

/-- A chat turn as sent to the completion backend. -/
structure ChatMsg where
  role : String
  content : String
deriving DecidableEq, Repr

/-- The statement `INSERT INTO messages ... ON CONFLICT (id) DO NOTHING`
(listener.py, step 2 of process_message): append the record unless a row
with the same id already exists. -/
def insert_message (st : MessageStore) (m : MessageRecord) : MessageStore :=
  if st.any (fun r => r.id == m.id) then st else st ++ [m]

/-- Step 3 of process_message: `SELECT role, content FROM messages WHERE
fan_id = .. ORDER BY created_at DESC LIMIT 6`, then reversed back to
chronological order.  On a chronologically ordered store this is the last
six rows for the fan. -/
def read_history (st : MessageStore) (fan_id : String) : List ChatMsg :=
  takeLast 6 ((st.filter (fun r => r.fan_id == fan_id)).map (fun r => ChatMsg.mk r.role r.content))

/-! ## Configuration surface (config.yaml fields the core reads) -/

/-- The configuration values consumed by brain.py.  `persona_block` and
`rules_block` stand for the statically rendered persona / interests /
safety sections interpolated into the system prompt (brain.py lines
256-294); no claim depends on their content. -/
structure GenConfig where
  blocked_topics : List String
  safe_responses : List String
  ai_persona : String
  persona_block : String
  rules_block : String

/-- The system instruction assembled in generate_sarah_response:
the configured persona text, the static persona/interest details, the
fan lore, and the static rule text. -/
def mk_system_instr (cfg : GenConfig) (fan_lore : String) : String :=
  cfg.ai_persona ++ cfg.persona_block ++ "Fan Lore: " ++ fan_lore ++ cfg.rules_block

/-- brain.py lines 296-300: `[system] + chat_history[-5:] + [user turn]`. -/
def formatted_messages (system_instr : String) (chat_history : List ChatMsg)
    (fan_message : String) : List ChatMsg :=
  ChatMsg.mk "system" system_instr :: (takeLast 5 chat_history ++ [ChatMsg.mk "user" fan_message])

/-- The completion request assembled by one pipeline run (listener.py
process_message steps 2-4 composed with brain.py lines 296-300): persist
the inbound user record, read back the bounded history, then format. -/
def pipeline_formatted (cfg : GenConfig) (st : MessageStore)
    (fan_id msg_id text lore : String) : List ChatMsg :=
  let st1 := insert_message st (MessageRecord.mk msg_id fan_id "user" text)
  formatted_messages (mk_system_instr cfg lore) (read_history st1 fan_id) text

theorem getLast?_takeLast {α : Type} {n : Nat} (hn : 0 < n) (l : List α) (hl : l ≠ []) :
    (takeLast n l).getLast? = l.getLast? := by
  unfold takeLast
  rw [List.getLast?_drop, if_neg]
  exact Nat.not_le.mpr (Nat.sub_lt (List.length_pos.mpr hl) hn)

/-- Claim C9: inbound message persistence is idempotent.  Inserting an id
already present is a no-op; after a first insert of a fresh id, a second
insert with the same id changes nothing and the store holds exactly one
row for that id, carrying the first-seen content. -/
theorem insert_message_idempotent :
    (∀ (st : MessageStore) (m : MessageRecord),
      st.any (fun r => r.id == m.id) = true → insert_message st m = st) ∧
    (∀ (st : MessageStore) (m m2 : MessageRecord), m2.id = m.id →
      st.any (fun r => r.id == m.id) = false →
      insert_message (insert_message st m) m2 = insert_message st m ∧
      (insert_message st m).filter (fun r => r.id == m.id) = [m]) := by
  constructor
  · intro st m h
    simp [insert_message, h]
  · intro st m m2 hid h
    have h1 : insert_message st m = st ++ [m] := by simp [insert_message, h]
    have hany : (st ++ [m]).any (fun r => r.id == m2.id) = true := by
      simp [List.any_append, hid]
    constructor
    · rw [h1]
      simp [insert_message, hany]
    · rw [h1, List.filter_append]
      have hnil : st.filter (fun r => r.id == m.id) = [] := by
        rw [List.filter_eq_nil_iff]
        intro a ha
        have := (List.any_eq_false (p := fun r => r.id == m.id) (l := st)).mp h a ha
        simpa using this
      simp [hnil]

/-- Witness for C9 at a concrete store and records. -/
theorem insert_message_idempotent_witness :
    insert_message (insert_message [] (MessageRecord.mk "m1" "f1" "user" "hello"))
        (MessageRecord.mk "m1" "f1" "user" "hello again") =
      insert_message [] (MessageRecord.mk "m1" "f1" "user" "hello") ∧
    (insert_message [] (MessageRecord.mk "m1" "f1" "user" "hello")).filter
        (fun r => r.id == "m1") = [MessageRecord.mk "m1" "f1" "user" "hello"] :=
  insert_message_idempotent.2 [] (MessageRecord.mk "m1" "f1" "user" "hello")
    (MessageRecord.mk "m1" "f1" "user" "hello again") rfl (by decide)

/-- Claim C10: the completion request assembled for reply generation
contains the inbound message text twice — the history read back from the
store ends with the just-persisted inbound user turn, and the same text
is appended once more as the separate final user turn, so the assembled
list carries the inbound user turn in its last two positions and at
least twice overall. -/
theorem pipeline_formatted_contains_inbound_twice :
    ∀ (cfg : GenConfig) (st : MessageStore) (fan_id msg_id text lore : String),
    st.any (fun r => r.id == msg_id) = false →
    (read_history (insert_message st (MessageRecord.mk msg_id fan_id "user" text))
        fan_id).getLast? = some (ChatMsg.mk "user" text) ∧
    (pipeline_formatted cfg st fan_id msg_id text lore).getLast? =
      some (ChatMsg.mk "user" text) ∧
    (pipeline_formatted cfg st fan_id msg_id text lore).dropLast.getLast? =
      some (ChatMsg.mk "user" text) ∧
    2 ≤ List.count (ChatMsg.mk "user" text)
      (pipeline_formatted cfg st fan_id msg_id text lore) := by
  intro cfg st fan_id msg_id text lore hfresh
  set rec := MessageRecord.mk msg_id fan_id "user" text with hrec
  set u := ChatMsg.mk "user" text with hu
  have h1 : insert_message st rec = st ++ [rec] := by simp [insert_message, hfresh, hrec]
  have hmapped :
      ((insert_message st rec).filter (fun r => r.fan_id == fan_id)).map
        (fun r => ChatMsg.mk r.role r.content) =
      (st.filter (fun r => r.fan_id == fan_id)).map
        (fun r => ChatMsg.mk r.role r.content) ++ [u] := by
    rw [h1, List.filter_append, List.map_append]
    simp [hrec, hu]
  have hhist : read_history (insert_message st rec) fan_id =
      takeLast 6 ((st.filter (fun r => r.fan_id == fan_id)).map
        (fun r => ChatMsg.mk r.role r.content) ++ [u]) := by
    rw [read_history, hmapped]
  have hlast : (read_history (insert_message st rec) fan_id).getLast? = some u := by
    rw [hhist, getLast?_takeLast (by norm_num) _ (by simp), List.getLast?_concat]
  have hne : read_history (insert_message st rec) fan_id ≠ [] := by
    intro hcon
    rw [hcon] at hlast
    simp at hlast
  have hlast5 : (takeLast 5 (read_history (insert_message st rec) fan_id)).getLast? =
      some u := by
    rw [getLast?_takeLast (by norm_num) _ hne, hlast]
  have hfmt : pipeline_formatted cfg st fan_id msg_id text lore =
      (ChatMsg.mk "system" (mk_system_instr cfg lore) ::
        takeLast 5 (read_history (insert_message st rec) fan_id)) ++ [u] := by
    rw [pipeline_formatted, formatted_messages]
    simp [hu]
  refine ⟨hlast, ?_, ?_, ?_⟩
  · rw [hfmt, List.getLast?_concat]
  · rw [hfmt, List.dropLast_concat, List.getLast?_cons, hlast5]
    rfl
  · rw [hfmt, List.count_append]
    have hmem : u ∈ takeLast 5 (read_history (insert_message st rec) fan_id) :=
      List.mem_of_getLast?_eq_some hlast5
    have hc1 : 1 ≤ List.count u
        (takeLast 5 (read_history (insert_message st rec) fan_id)) :=
      List.one_le_count_iff.mpr hmem
    have hc2 : List.count u
        (takeLast 5 (read_history (insert_message st rec) fan_id)) ≤
        List.count u (ChatMsg.mk "system" (mk_system_instr cfg lore) ::
          takeLast 5 (read_history (insert_message st rec) fan_id)) := by
      rw [List.count_cons]
      omega
    have hc3 : List.count u [u] = 1 := by simp
    omega

/-- Witness for C10 at a concrete store. -/
theorem pipeline_formatted_contains_inbound_twice_witness :
    (pipeline_formatted (GenConfig.mk [] ["ok"] "p" "d" "r")
        [MessageRecord.mk "m0" "f1" "assistant" "hi there"]
        "f1" "m1" "how are you" "").getLast? = some (ChatMsg.mk "user" "how are you") ∧
    2 ≤ List.count (ChatMsg.mk "user" "how are you")
      (pipeline_formatted (GenConfig.mk [] ["ok"] "p" "d" "r")
        [MessageRecord.mk "m0" "f1" "assistant" "hi there"]
        "f1" "m1" "how are you" "") := by
  have h := pipeline_formatted_contains_inbound_twice (GenConfig.mk [] ["ok"] "p" "d" "r")
    [MessageRecord.mk "m0" "f1" "assistant" "hi there"] "f1" "m1" "how are you" ""
    (by decide)
  exact ⟨h.2.1, h.2.2.2⟩

/-! ## Signature verification (listener.py lines 187-209) -/

/-- Python `str.split(sep)` for a one-character separator. -/
def splitOnChar (sep : Char) : List Char → List (List Char)
  | [] => [[]]
  | c :: rest =>
    if c == sep then [] :: splitOnChar sep rest
    else
      match splitOnChar sep rest with
      | [] => [[c]]
      | h :: t => (c :: h) :: t

/-- The expression `dict(x.split(chr(61)) for x in header.split(chr(44)))`: every
comma-separated piece must split on the equals sign into exactly two
parts, otherwise the `dict` constructor raises (and the caller returns
false). -/
def parse_sig_header (header : String) : Option (List (String × String)) :=
  let pairs := (splitOnChar ',' header.data).map (splitOnChar '=')
  if pairs.all (fun l => l.length == 2) then
    some (pairs.map (fun l => (String.mk (l.headD []), String.mk (l.getD 1 []))))
  else none

/-- Lookup in an association list where a later duplicate key overwrites
an earlier one, as in the Python `dict` constructor. -/
def lookupLast (kvs : List (String × String)) (k : String) : Option String :=
  (kvs.reverse.find? (fun kv => kv.1 == k)).map (fun kv => kv.2)

/-- Numeric value of a digit string. -/
def digitsToNat (l : List Char) : Nat :=
  l.foldl (fun a c => a * 10 + (c.toNat - 48)) 0

/-- Python `int(s)` on a decimal string: surrounding whitespace allowed,
optional sign, then one or more digits; anything else raises ValueError
(modelled as `none`).  The digit-group-underscore form accepted by
Python is not modelled; no caller input uses it. -/
def pyInt? (s : String) : Option Int :=
  match pystrip s.data with
  | [] => none
  | c :: rest =>
    let signed : Int × List Char :=
      if c == '+' then (1, rest) else if c == '-' then (-1, rest) else (1, c :: rest)
    if signed.2 ≠ [] && signed.2.all Char.isDigit then
      some (signed.1 * (digitsToNat signed.2 : Int))
    else none

/-- listener.py verify_signature: parse the header, require nonempty `t`
and `v0`, reject timestamps farther than 300 seconds from `now`, then
compare the received signature with the HMAC-SHA256 hex digest of
`t` ++ "." ++ payload under the secret.  The HMAC primitive is abstracted
as the parameter `hmacHex`; `hmac.compare_digest` is functionally string
equality (its constant-time execution has no value-level effect).  Every
exception path of the Python code returns false. -/
def verify_signature (hmacHex : String → String → String) (secret : String)
    (now : Int) (payload header : String) : Bool :=
  match parse_sig_header header with
  | none => false
  | some kvs =>
    match lookupLast kvs "t", lookupLast kvs "v0" with
    | some ts, some v0 =>
      if ts == "" || v0 == "" then false
      else
        match pyInt? ts with
        | none => false
        | some t =>
          if (now - t).natAbs > 300 then false
          else hmacHex secret (ts ++ "." ++ payload) == v0
    | _, _ => false

/-- Claim C1: signature verification is a total boolean predicate that
succeeds exactly when the header parses into key=value pairs carrying
nonempty `t` and `v0`, `t` reads as an integer within 300 seconds of
`now`, and the hex HMAC of `t` ++ "." ++ payload under the secret equals
`v0`; every other case (missing key, malformed header, stale timestamp,
digest mismatch) yields false rather than an exception. -/
theorem verify_signature_characterization :
    ∀ (hmacHex : String → String → String) (secret : String) (now : Int)
      (payload header : String),
    verify_signature hmacHex secret now payload header = true ↔
      ∃ kvs ts v0 t,
        parse_sig_header header = some kvs ∧
        lookupLast kvs "t" = some ts ∧
        lookupLast kvs "v0" = some v0 ∧
        ts ≠ "" ∧ v0 ≠ "" ∧
        pyInt? ts = some t ∧
        (now - t).natAbs ≤ 300 ∧
        hmacHex secret (ts ++ "." ++ payload) = v0 := by
  intro hmacHex secret now payload header
  constructor
  · intro h
    unfold verify_signature at h
    split at h
    · simp at h
    · rename_i kvs hp
      split at h
      · rename_i ts v0 hts hv0
        split at h
        · simp at h
        · rename_i hemp
          split at h
          · simp at h
          · rename_i t hint
            split at h
            · simp at h
            · rename_i hage
              refine ⟨kvs, ts, v0, t, hp, hts, hv0, ?_, ?_, hint,
                Nat.le_of_not_lt hage, by simpa using h⟩
              · intro hcon
                exact hemp (by simp [hcon])
              · intro hcon
                exact hemp (by simp [hcon])
      · simp at h
  · rintro ⟨kvs, ts, v0, t, hp, hts, hv0, hts_ne, hv0_ne, hint, hage, hsig⟩
    simp only [verify_signature, hp, hts, hv0, hint]
    rw [if_neg (by simp [hts_ne, hv0_ne]), if_neg (by omega), hsig]
    simp

/-- Witness for C1: a well-formed header with a fresh timestamp and a
matching digest verifies, via the characterization. -/
theorem verify_signature_characterization_witness :
    verify_signature (fun _ _ => "abc") "whsec" 1000 "body" "t=1000,v0=abc" = true :=
  (verify_signature_characterization (fun _ _ => "abc") "whsec" 1000 "body"
    "t=1000,v0=abc").mpr
    ⟨[("t", "1000"), ("v0", "abc")], "1000", "abc", 1000,
      by decide, by decide, by decide, by decide, by decide, by decide,
      by decide, rfl⟩

/-! ## Safety filter (brain.py lines 25-71) -/

/-- The fixed sexual/exploitative term list of contains_blocked_content. -/
def inappropriate_contexts : List String :=
  ["sex", "sexual", "porn", "nude", "naked", "sexy", "hot",
   "fuck", "masturbate", "penis", "vagina", "boobs", "ass",
   "molest", "rape", "abuse", "exploit"]

/-- Regex word character (backslash-w), ASCII fragment. -/
def isWordCh (c : Char) : Bool := c.isAlphanum || c == '_'

/-- A regex word boundary holds just before position `i`. -/
def boundaryBefore (tl : List Char) (i : Nat) : Bool :=
  i == 0 ||
    match tl.get? (i - 1) with
    | some c => !isWordCh c
    | none => true

/-- A regex word boundary holds just before position `j` seen from the
left, i.e. the character at `j` (if any) is not a word character. -/
def boundaryAfter (tl : List Char) (j : Nat) : Bool :=
  match tl.get? j with
  | some c => !isWordCh c
  | none => true

/-- End position of a match of the age alternation `(0?[0-9]|1[0-7])`
starting at `i`, with its trailing word boundary; the regex engine
prefers the two-character forms and backtracks to a lone digit.  The
possible forms exclude each other because a digit is a word character, so
at most one end position exists. -/
def ageTokenEnd (tl : List Char) (i : Nat) : Option Nat :=
  match tl.get? i, tl.get? (i + 1) with
  | some c0, some c1 =>
    if ((c0 == '0' && c1.isDigit) || (c0 == '1' && ('0' ≤ c1 && c1 ≤ '7')))
        && boundaryAfter tl (i + 2) then some (i + 2)
    else if c0.isDigit && boundaryAfter tl (i + 1) then some (i + 1)
    else none
  | some c0, none => if c0.isDigit then some (i + 1) else none
  | _, _ => none

/-- A full word-boundary-delimited age-token match `(start, end)` at `i`. -/
def ageMatchAt (tl : List Char) (i : Nat) : Option (Nat × Nat) :=
  if boundaryBefore tl i then (ageTokenEnd tl i).map (fun j => (i, j)) else none

/-- The 50-characters-before/after window around a match span. -/
def windowSlice (tl : List Char) (i j : Nat) : List Char :=
  let s := i - 50
  let e := min tl.length (j + 50)
  (tl.drop s).take (e - s)

/-- Does any inappropriate term occur inside the window? -/
def windowHit (tl : List Char) (i j : Nat) : Bool :=
  inappropriate_contexts.any (fun tm => listContains tm.data (windowSlice tl i j))

/-- One iteration of the finditer loop: an age match starting at `i`
whose value is below 18 and whose window holds an inappropriate term. -/
def ageHitAt (tl : List Char) (i : Nat) : Bool :=
  match ageMatchAt tl i with
  | some pr =>
    decide (digitsToNat ((tl.drop pr.1).take (pr.2 - pr.1)) < 18) && windowHit tl pr.1 pr.2
  | none => false

/-- The contextual underage rule of contains_blocked_content. -/
def age_context_flag (tl : List Char) : Bool :=
  (List.range tl.length).any (ageHitAt tl)

/-- brain.py contains_blocked_content: a configured blocked topic occurs
in the lowercased text, or the contextual underage rule fires. -/
def contains_blocked_content (blocked_topics : List String) (text : String) : Bool :=
  let tl := lowerL text.data
  blocked_topics.any (fun tp => listContains tp.data tl) || age_context_flag tl

theorem ageHitAt_iff (tl : List Char) (i : Nat) :
    ageHitAt tl i = true ↔ ∃ a b, ageMatchAt tl i = some (a, b) ∧
      digitsToNat ((tl.drop a).take (b - a)) < 18 ∧ windowHit tl a b = true := by
  cases h : ageMatchAt tl i with
  | none => simp [ageHitAt, h]
  | some pr =>
    cases pr with
    | mk a b =>
      simp only [ageHitAt, h, Bool.and_eq_true, decide_eq_true_eq, Option.some.injEq,
        Prod.mk.injEq]
      constructor
      · rintro ⟨hval, hw⟩
        exact ⟨a, b, ⟨rfl, rfl⟩, hval, hw⟩
      · rintro ⟨a2, b2, ⟨ha, hb⟩, hval, hw⟩
        cases ha
        cases hb
        exact ⟨hval, hw⟩

theorem age_context_flag_iff (tl : List Char) :
    age_context_flag tl = true ↔ ∃ i a b, i < tl.length ∧
      ageMatchAt tl i = some (a, b) ∧
      digitsToNat ((tl.drop a).take (b - a)) < 18 ∧
      ∃ tm ∈ inappropriate_contexts, ∃ u v,
        windowSlice tl a b = u ++ tm.data ++ v := by
  unfold age_context_flag
  rw [List.any_eq_true]
  constructor
  · rintro ⟨i, hi, hhit⟩
    rw [List.mem_range] at hi
    obtain ⟨a, b, hab, hval, hw⟩ := (ageHitAt_iff tl i).mp hhit
    rw [windowHit, List.any_eq_true] at hw
    obtain ⟨tm, htm, hc⟩ := hw
    rw [listContains_iff] at hc
    obtain ⟨u, v, huv⟩ := hc
    exact ⟨i, a, b, hi, hab, hval, tm, htm, u, v, huv⟩
  · rintro ⟨i, a, b, hi, hab, hval, tm, htm, u, v, huv⟩
    refine ⟨i, List.mem_range.mpr hi, (ageHitAt_iff tl i).mpr ⟨a, b, hab, hval, ?_⟩⟩
    rw [windowHit, List.any_eq_true]
    exact ⟨tm, htm, (listContains_iff tm.data (windowSlice tl a b)).mpr ⟨u, v, huv⟩⟩

/-- Claim C2: the filter returns true exactly when a blocked topic occurs
as a substring of the lowercased text or a standalone age token in range
0-17 has an inappropriate term within the 50-character window around it;
in particular the claimed concrete sentences evaluate as stated, a
standalone "17" triggers next to "sex" while "170" does not. -/
theorem contains_blocked_content_characterization :
    (∀ (blocked_topics : List String) (text : String),
      contains_blocked_content blocked_topics text = true ↔
        (∃ tp ∈ blocked_topics, ∃ u v, lowerL text.data = u ++ tp.data ++ v) ∨
        (∃ i a b, i < (lowerL text.data).length ∧
          ageMatchAt (lowerL text.data) i = some (a, b) ∧
          digitsToNat (((lowerL text.data).drop a).take (b - a)) < 18 ∧
          ∃ tm ∈ inappropriate_contexts, ∃ u v,
            windowSlice (lowerL text.data) a b = u ++ tm.data ++ v)) ∧
    contains_blocked_content [] "this mentions 15 and sex" = true ∧
    contains_blocked_content [] "I am 15 years old and love hiking" = false ∧
    contains_blocked_content [] "17 sex" = true ∧
    contains_blocked_content [] "170 sex" = false := by
  refine ⟨?_, by decide, by decide, by decide, by decide⟩
  intro blocked_topics text
  unfold contains_blocked_content
  rw [Bool.or_eq_true, List.any_eq_true, age_context_flag_iff]
  constructor
  · rintro (⟨tp, htp, hc⟩ | h)
    · rw [listContains_iff] at hc
      obtain ⟨u, v, huv⟩ := hc
      exact Or.inl ⟨tp, htp, u, v, huv⟩
    · exact Or.inr h
  · rintro (⟨tp, htp, u, v, huv⟩ | h)
    · exact Or.inl ⟨tp, htp, (listContains_iff tp.data (lowerL text.data)).mpr ⟨u, v, huv⟩⟩
    · exact Or.inr h

/-! ## Completion backend abstraction -/

/-- Outcome of one call to the completion backend, as observed by the
calling code: a response with an HTTP status and (for parsable bodies)
the completion text, a transport timeout, a connection error, or any
other exception raised during the call or while reading the body. -/
inductive BackendResult where
  | ok (status : Nat) (content : String)
  | timeout
  | connError
  | exc
deriving DecidableEq, Repr

/-! ## Lore extraction and update (brain.py 153-224, listener.py 211-239) -/

/-- brain.py generate_lore_update: non-200 responses and every exception
collapse to the sentinel "NO_NEW_INFO"; a 200 body is stripped, and the
sentinel or an empty result again yields "NO_NEW_INFO".  The prompt built
from `fan_message` and `previous_lore` only steers the backend, whose
outcome is the abstracted `backend` parameter. -/
def generate_lore_update (backend : BackendResult)
    (fan_message previous_lore : String) : String :=
  match backend with
  | .ok status content =>
    if status ≠ 200 then "NO_NEW_INFO"
    else
      let response := pystripS content
      if response == "NO_NEW_INFO" || response == "" then "NO_NEW_INFO" else response
  | _ => "NO_NEW_INFO"

/-- listener.py update_fan_lore: ask the extractor, keep the stripped
previous lore on "NO_NEW_INFO", otherwise append the new fact as a new
line (just the fact when the previous lore is empty) and strip. -/
def update_fan_lore (backend : BackendResult)
    (fan_id incoming_text fan_name previous_lore : String) : String :=
  let new_info := generate_lore_update backend incoming_text previous_lore
  if new_info == "NO_NEW_INFO" then pystripS previous_lore
  else if previous_lore ≠ "" then pystripS (previous_lore ++ "\n" ++ new_info)
  else pystripS new_info

theorem head?_dropWhile_not (p : Char → Bool) (l : List Char) :
    ∀ c, (l.dropWhile p).head? = some c → p c = false := by
  intro c hc
  have hne : l.dropWhile p ≠ [] := by
    intro h0
    rw [h0] at hc
    simp at hc
  have hhead := List.head?_eq_head (l := l.dropWhile p) hne
  rw [hhead, Option.some.injEq] at hc
  rw [← hc]
  exact List.head_dropWhile_not p l hne

theorem pystrip_last (s : List Char) :
    ∀ c, (pystrip s).getLast? = some c → pyWs c = false := by
  intro c hc
  unfold pystrip at hc
  rw [List.getLast?_reverse] at hc
  exact head?_dropWhile_not pyWs _ c hc

theorem pystrip_decomp (s : List Char) :
    ∃ t, s.dropWhile pyWs = pystrip s ++ t := by
  refine ⟨((s.dropWhile pyWs).reverse.takeWhile pyWs).reverse, ?_⟩
  unfold pystrip
  rw [← List.reverse_append, List.takeWhile_append_dropWhile, List.reverse_reverse]

theorem pystrip_head (s : List Char) :
    ∀ c, (pystrip s).head? = some c → pyWs c = false := by
  intro c hc
  obtain ⟨t, ht⟩ := pystrip_decomp s
  have : (s.dropWhile pyWs).head? = some c := by
    rw [ht, List.head?_append, hc]
    rfl
  exact head?_dropWhile_not pyWs s c this

theorem pystrip_eq_self (s : List Char)
    (h1 : ∀ c, s.head? = some c → pyWs c = false)
    (h2 : ∀ c, s.getLast? = some c → pyWs c = false) : pystrip s = s := by
  unfold pystrip
  have hfront : s.dropWhile pyWs = s := by
    cases s with
    | nil => rfl
    | cons c t => exact List.dropWhile_cons_of_neg (by simp [h1 c rfl])
  rw [hfront]
  have hback : s.reverse.dropWhile pyWs = s.reverse := by
    cases hr : s.reverse with
    | nil => rfl
    | cons c t =>
      have hc : s.getLast? = some c := by
        rw [List.getLast?_eq_head?_reverse, hr]
        rfl
      rw [← hr]
      rw [hr]
      exact List.dropWhile_cons_of_neg (by simp [h2 c hc])
  rw [hback, List.reverse_reverse]

theorem pystrip_idem (s : List Char) : pystrip (pystrip s) = pystrip s :=
  pystrip_eq_self (pystrip s) (pystrip_head s) (pystrip_last s)

theorem pystripS_idem (s : String) : pystripS (pystripS s) = pystripS s := by
  unfold pystripS
  exact congrArg String.mk (pystrip_idem s.data)

theorem pystripS_data (s : String) (h : pystripS s = s) : pystrip s.data = s.data :=
  congrArg String.data h

/-- Facts produced by the extractor are already stripped, nonempty, and
come only from a 200 response. -/
theorem generate_lore_update_shape (br : BackendResult) (msg prev : String)
    (h : generate_lore_update br msg prev ≠ "NO_NEW_INFO") :
    ∃ c, br = .ok 200 c ∧ generate_lore_update br msg prev = pystripS c ∧
      generate_lore_update br msg prev ≠ "" := by
  cases br with
  | timeout => exact absurd rfl h
  | connError => exact absurd rfl h
  | exc => exact absurd rfl h
  | ok status content =>
    simp only [generate_lore_update] at h ⊢
    by_cases hs : status = 200
    · subst hs
      rw [if_neg (by simp)] at h ⊢
      by_cases hr : (pystripS content == "NO_NEW_INFO" || pystripS content == "") = true
      · rw [if_pos hr] at h
        exact absurd rfl h
      · rw [if_neg hr] at h ⊢
        have hne : pystripS content ≠ "" := by
          intro h0
          exact hr (by simp [h0])
        exact ⟨content, rfl, rfl, hne⟩
    · rw [if_pos (by simpa using hs)] at h
      exact absurd rfl h

theorem data_ne_nil_of_ne_empty {s : String} (h : s ≠ "") : s.data ≠ [] := by
  intro h0
  apply h
  cases s with
  | mk data =>
    simp only at h0
    rw [h0]

/-- Appending a newline and an already-stripped nonempty fact to an
already-stripped nonempty lore is a fixed point of stripping. -/
theorem pystripS_append_line (prev f : String)
    (hp : pystripS prev = prev) (hpne : prev ≠ "")
    (hf : pystripS f = f) (hfne : f ≠ "") :
    pystripS (prev ++ "\n" ++ f) = prev ++ "\n" ++ f := by
  have hpd := pystripS_data prev hp
  have hfd := pystripS_data f hf
  have hpne2 : prev.data ≠ [] := data_ne_nil_of_ne_empty hpne
  have hfne2 : f.data ≠ [] := data_ne_nil_of_ne_empty hfne
  have hdata : (prev ++ "\n" ++ f).data = prev.data ++ ('\n' :: f.data) := by
    rw [String.data_append, String.data_append, List.append_assoc]
    rfl
  have h1 : ∀ c, (prev.data ++ ('\n' :: f.data)).head? = some c → pyWs c = false := by
    intro c hc
    apply pystrip_head prev.data c
    rw [hpd]
    rw [List.head?_append] at hc
    cases hd : prev.data.head? with
    | none => exact absurd (List.head?_eq_none_iff.mp hd) hpne2
    | some d =>
      rw [hd] at hc
      simpa using hc
  have h2 : ∀ c, (prev.data ++ ('\n' :: f.data)).getLast? = some c → pyWs c = false := by
    intro c hc
    apply pystrip_last f.data c
    rw [hfd]
    rw [List.getLast?_append, List.getLast?_cons] at hc
    cases hd : f.data.getLast? with
    | none => exact absurd (List.getLast?_eq_none_iff.mp hd) hfne2
    | some d =>
      rw [hd] at hc
      simpa using hc
  show String.mk (pystrip (prev ++ "\n" ++ f).data) = prev ++ "\n" ++ f
  rw [hdata, pystrip_eq_self _ h1 h2, ← hdata]

/-- Counterexample to claim C6 as stated: on a transport error (here, an
exception during the completion call) the code returns
`previous_lore.strip()`, which differs from the unchanged previous lore
whenever that lore carries surrounding whitespace. -/
theorem update_fan_lore_strips_counterexample :
    update_fan_lore BackendResult.exc "fan1" "hello" "" " x" = "x" ∧
    (" x" : String) ≠ "x" := by
  constructor
  · decide
  · decide

/-- Claim C6 (amended): lore update is monotonic and append-only up to
trimming of surrounding whitespace.  Transport errors, non-200 responses
and empty completion output collapse to "NO_NEW_INFO", in which case the
trimmed previous lore is returned (the previous lore itself when already
trimmed); when the extractor yields a fact, the result is the trimmed
concatenation previous-lore, newline, fact — exactly previous lore,
newline, fact, in that order, when the previous lore is already trimmed,
and just the fact when the previous lore is empty. -/
theorem update_fan_lore_monotone :
    (∀ (br : BackendResult) (msg prev : String),
      (br = .timeout ∨ br = .connError ∨ br = .exc ∨
        (∃ s c, br = .ok s c ∧ s ≠ 200) ∨
        (∃ c, br = .ok 200 c ∧ pystripS c = "")) →
      generate_lore_update br msg prev = "NO_NEW_INFO") ∧
    (∀ (br : BackendResult) (fid msg name prev : String),
      generate_lore_update br msg prev = "NO_NEW_INFO" →
      update_fan_lore br fid msg name prev = pystripS prev) ∧
    (∀ (br : BackendResult) (fid msg name prev : String),
      generate_lore_update br msg prev ≠ "NO_NEW_INFO" →
      update_fan_lore br fid msg name prev =
        (if prev = "" then generate_lore_update br msg prev
         else pystripS (prev ++ "\n" ++ generate_lore_update br msg prev))) ∧
    (∀ (br : BackendResult) (fid msg name prev : String),
      pystripS prev = prev → prev ≠ "" →
      generate_lore_update br msg prev ≠ "NO_NEW_INFO" →
      update_fan_lore br fid msg name prev =
        prev ++ "\n" ++ generate_lore_update br msg prev) := by
  have hfail : ∀ (br : BackendResult) (msg prev : String),
      (br = .timeout ∨ br = .connError ∨ br = .exc ∨
        (∃ s c, br = .ok s c ∧ s ≠ 200) ∨
        (∃ c, br = .ok 200 c ∧ pystripS c = "")) →
      generate_lore_update br msg prev = "NO_NEW_INFO" := by
    intro br msg prev hcase
    rcases hcase with rfl | rfl | rfl | ⟨s, c, rfl, hs⟩ | ⟨c, rfl, hc⟩
    · rfl
    · rfl
    · rfl
    · simp only [generate_lore_update]
      rw [if_pos hs]
    · simp only [generate_lore_update]
      rw [if_neg (by simp), if_pos (by simp [hc])]
  have hnoinfo : ∀ (br : BackendResult) (fid msg name prev : String),
      generate_lore_update br msg prev = "NO_NEW_INFO" →
      update_fan_lore br fid msg name prev = pystripS prev := by
    intro br fid msg name prev h
    unfold update_fan_lore
    rw [h]
    simp
  have happend : ∀ (br : BackendResult) (fid msg name prev : String),
      generate_lore_update br msg prev ≠ "NO_NEW_INFO" →
      update_fan_lore br fid msg name prev =
        (if prev = "" then generate_lore_update br msg prev
         else pystripS (prev ++ "\n" ++ generate_lore_update br msg prev)) := by
    intro br fid msg name prev h
    obtain ⟨c, hbr, hform, hne⟩ := generate_lore_update_shape br msg prev h
    unfold update_fan_lore
    rw [if_neg (by simpa using h)]
    by_cases hprev : prev = ""
    · rw [if_neg (by simpa using hprev), if_pos hprev, hform, pystripS_idem]
    · rw [if_pos (by simpa using hprev), if_neg hprev]
  refine ⟨hfail, hnoinfo, happend, ?_⟩
  intro br fid msg name prev hstr hne h
  obtain ⟨c, hbr, hform, hfne⟩ := generate_lore_update_shape br msg prev h
  rw [happend br fid msg name prev h, if_neg hne]
  exact pystripS_append_line prev (generate_lore_update br msg prev) hstr hne
    (by rw [hform, pystripS_idem]) hfne

/-- Witness for C6 on the example given in the specification: previous lore
"Fan likes hiking" plus an extracted fact yields previous lore, newline,
fact, in that order. -/
theorem update_fan_lore_monotone_witness :
    update_fan_lore (BackendResult.ok 200 "Fan has a dog named Rex")
        "fan1" "I got a dog named Rex" "" "Fan likes hiking" =
      "Fan likes hiking" ++ "\n" ++
        generate_lore_update (BackendResult.ok 200 "Fan has a dog named Rex")
          "I got a dog named Rex" "Fan likes hiking" :=
  update_fan_lore_monotone.2.2.2 (BackendResult.ok 200 "Fan has a dog named Rex")
    "fan1" "I got a dog named Rex" "" "Fan likes hiking"
    (by decide) (by decide) (by decide)

/-! ## Fan-name extraction (brain.py 82-129) -/

/-- The apostrophe character, used inside two naming patterns. -/
def apos : Char := Char.ofNat 39

/-- The literal parts of the five naming-phrase regexes, in the order the
code tries them; each is followed in the regex by one-or-more whitespace
and a captured one-or-more word characters. -/
def name_pattern_literals : List (List Char) :=
  [['i', apos, 'm'],
   "call me".data,
   "my name is".data,
   ['n', 'a', 'm', 'e', apos, 's'],
   "i go by".data]

/-- Try the pattern `lit` backslash-s-plus `(` backslash-w-plus `)` at the
start of `s`; both character classes are disjoint, so the regex engine
cannot trade whitespace for word characters and the maximal-run reading
is exact. -/
def tryPatAt (lit : List Char) (s : List Char) : Option (List Char) :=
  if listPre lit s then
    let r1 := s.drop lit.length
    let ws := r1.takeWhile pyWs
    if ws.isEmpty then none
    else
      let w := (r1.drop ws.length).takeWhile isWordCh
      if w.isEmpty then none else some w
  else none

/-- Python `re.search`: the capture of the leftmost position where the whole
pattern matches. -/
def searchPat (lit : List Char) : List Char → Option (List Char)
  | [] => none
  | c :: rest =>
    match tryPatAt lit (c :: rest) with
    | some w => some w
    | none => searchPat lit rest

/-- Python `str.capitalize()`: first character uppercased, rest lowered. -/
def pyCapitalize : List Char → List Char
  | [] => []
  | c :: t => c.toUpper :: t.map Char.toLower

/-- First capture over the pattern list, on the lowercased text. -/
def find_name_in (s : List Char) : Option (List Char) :=
  name_pattern_literals.findSome? (fun p => searchPat p (lowerL s))

/-- brain.py extract_fan_name: current message first, then the lore text
when nonempty, then each history entry in order; the first capture wins
and is capitalized; empty string when nothing matches anywhere. -/
def extract_fan_name (fan_message fan_lore : String) (chat_history : List ChatMsg) : String :=
  match find_name_in fan_message.data with
  | some w => String.mk (pyCapitalize w)
  | none =>
    match (if fan_lore ≠ "" then find_name_in fan_lore.data else none) with
    | some w => String.mk (pyCapitalize w)
    | none =>
      match chat_history.findSome? (fun m => find_name_in m.content.data) with
      | some w => String.mk (pyCapitalize w)
      | none => ""

/-- Claim C7: name extraction precedence.  A capture in the message wins
over everything; otherwise a capture in the (nonempty) lore wins over
history; otherwise the first capturing history entry wins; the empty
string results when no source matches; and the claimed concrete input
yields "Jay". -/
theorem extract_fan_name_precedence :
    (∀ (m l : String) (h : List ChatMsg) (w : List Char),
      find_name_in m.data = some w →
      extract_fan_name m l h = String.mk (pyCapitalize w)) ∧
    (∀ (m l : String) (h : List ChatMsg) (w : List Char),
      find_name_in m.data = none → l ≠ "" → find_name_in l.data = some w →
      extract_fan_name m l h = String.mk (pyCapitalize w)) ∧
    (∀ (m l : String) (h : List ChatMsg) (w : List Char),
      find_name_in m.data = none →
      (l = "" ∨ find_name_in l.data = none) →
      h.findSome? (fun msg => find_name_in msg.content.data) = some w →
      extract_fan_name m l h = String.mk (pyCapitalize w)) ∧
    (∀ (m l : String) (h : List ChatMsg),
      find_name_in m.data = none →
      (l = "" ∨ find_name_in l.data = none) →
      h.findSome? (fun msg => find_name_in msg.content.data) = none →
      extract_fan_name m l h = "") ∧
    extract_fan_name ("Hey it" ++ String.mk [apos] ++ "s me, call me Jay") "" [] = "Jay" := by
  refine ⟨?_, ?_, ?_, ?_, by decide⟩
  · intro m l h w hm
    simp only [extract_fan_name, hm]
  · intro m l h w hm hl hlw
    simp only [extract_fan_name, hm, hlw]
    rw [if_pos hl]
  · intro m l h w hm hl hh
    rcases hl with hl | hl
    · simp only [extract_fan_name, hm, hl, hh]
      simp
    · simp only [extract_fan_name, hm, hh]
      cases hcase : (if l ≠ "" then find_name_in l.data else none) with
      | some v =>
        exfalso
        by_cases hl2 : l = ""
        · rw [if_neg (by simpa using hl2)] at hcase
          simp at hcase
        · rw [if_pos (by simpa using hl2), hl] at hcase
          simp at hcase
      | none => simp
  · intro m l h hm hl hh
    rcases hl with hl | hl
    · simp only [extract_fan_name, hm, hl, hh]
      simp
    · simp only [extract_fan_name, hm, hh]
      cases hcase : (if l ≠ "" then find_name_in l.data else none) with
      | some v =>
        exfalso
        by_cases hl2 : l = ""
        · rw [if_neg (by simpa using hl2)] at hcase
          simp at hcase
        · rw [if_pos (by simpa using hl2), hl] at hcase
          simp at hcase
      | none => simp

/-- Witness for C7: the message capture takes precedence over a lore
line and a history entry that would also capture. -/
theorem extract_fan_name_precedence_witness :
    extract_fan_name "call me Jay" "my name is bob"
      [ChatMsg.mk "user" "i go by pat"] = String.mk (pyCapitalize ['j', 'a', 'y']) :=
  extract_fan_name_precedence.1 "call me Jay" "my name is bob"
    [ChatMsg.mk "user" "i go by pat"] ['j', 'a', 'y'] (by decide)

/-! ## Preset-nickname substitution (brain.py 131-151) -/

/-- Python `str.replace(pat, rep)` with fuel bounded by the list length:
scan left to right, replace each non-overlapping occurrence of `pat`,
continue after the replacement.  (The empty-pattern case, which Python
treats specially, is unreachable here: the configured nicknames are
nonempty.) -/
def pyReplaceFuel (pat rep : List Char) : Nat → List Char → List Char
  | _, [] => []
  | 0, s => s
  | fuel + 1, c :: rest =>
    if !pat.isEmpty && listPre pat (c :: rest) then
      rep ++ pyReplaceFuel pat rep fuel ((c :: rest).drop pat.length)
    else c :: pyReplaceFuel pat rep fuel rest

/-- Python `s.replace(pat, rep)` on character lists. -/
def pyReplace (pat rep s : List Char) : List Char :=
  pyReplaceFuel pat rep s.length s

/-- Python `s.replace(pat, rep)` on strings. -/
def pyReplaceS (s pat rep : String) : String :=
  String.mk (pyReplace pat.data rep.data s.data)

/-- The hard-coded placeholder nicknames of replace_preset_nickname. -/
def preset_nicknames : List String := ["Cutie", "Babe", "Good Looking"]

/-- brain.py replace_preset_nickname: no-op on an empty fan name,
otherwise each preset nickname is replaced in turn by the fan name. -/
def replace_preset_nickname (response fan_name : String) : String :=
  if fan_name == "" then response
  else preset_nicknames.foldl (fun r nick => pyReplaceS r nick fan_name) response

theorem pyReplaceFuel_fuel_irrel (pat rep : List Char) :
    ∀ (f1 : Nat) (s : List Char) (f2 : Nat), s.length ≤ f1 → s.length ≤ f2 →
    pyReplaceFuel pat rep f1 s = pyReplaceFuel pat rep f2 s := by
  intro f1
  induction f1 with
  | zero =>
    intro s f2 h1 h2
    have : s = [] := List.length_eq_zero.mp (Nat.le_zero.mp h1)
    subst this
    cases f2 <;> rfl
  | succ f1 ih =>
    intro s f2 h1 h2
    cases s with
    | nil => cases f2 <;> rfl
    | cons c rest =>
      cases f2 with
      | zero => exact absurd h2 (by simp)
      | succ f2 =>
        show (if !pat.isEmpty && listPre pat (c :: rest) then
            rep ++ pyReplaceFuel pat rep f1 ((c :: rest).drop pat.length)
          else c :: pyReplaceFuel pat rep f1 rest) =
          (if !pat.isEmpty && listPre pat (c :: rest) then
            rep ++ pyReplaceFuel pat rep f2 ((c :: rest).drop pat.length)
          else c :: pyReplaceFuel pat rep f2 rest)
        by_cases hcond : (!pat.isEmpty && listPre pat (c :: rest)) = true
        · rw [if_pos hcond, if_pos hcond]
          have hpat : 1 ≤ pat.length := by
            rcases pat with _ | ⟨p, ps⟩
            · simp at hcond
            · simp
          have hd : ((c :: rest).drop pat.length).length ≤ f1 := by
            rw [List.length_drop]
            simp only [List.length_cons] at h1 ⊢
            omega
          have hd2 : ((c :: rest).drop pat.length).length ≤ f2 := by
            rw [List.length_drop]
            simp only [List.length_cons] at h2 ⊢
            omega
          rw [ih _ _ hd hd2]
        · rw [if_neg hcond, if_neg hcond]
          have hr : rest.length ≤ f1 := by
            simp only [List.length_cons] at h1
            omega
          have hr2 : rest.length ≤ f2 := by
            simp only [List.length_cons] at h2
            omega
          rw [ih _ _ hr hr2]

theorem pyReplaceFuel_no_occ (pat rep : List Char) :
    ∀ (fuel : Nat) (s : List Char), listContains pat s = false →
    pyReplaceFuel pat rep fuel s = s := by
  intro fuel
  induction fuel with
  | zero =>
    intro s _
    cases s <;> rfl
  | succ fuel ih =>
    intro s hno
    cases s with
    | nil => rfl
    | cons c rest =>
      have hsplit : listPre pat (c :: rest) = false ∧ listContains pat rest = false := by
        have : (listPre pat (c :: rest) || listContains pat rest) = false := hno
        exact ⟨by simpa using Bool.or_eq_false_iff.mp this |>.1,
          Bool.or_eq_false_iff.mp this |>.2⟩
      show (if !pat.isEmpty && listPre pat (c :: rest) then
          rep ++ pyReplaceFuel pat rep fuel ((c :: rest).drop pat.length)
        else c :: pyReplaceFuel pat rep fuel rest) = c :: rest
      rw [if_neg (by simp [hsplit.1]), ih rest hsplit.2]

/-- Leftmost-first: an occurrence of the pattern at the head is replaced
and scanning resumes after it. -/
theorem pyReplace_head_occ (pat rep b : List Char) (hpat : pat ≠ []) :
    pyReplace pat rep (pat ++ b) = rep ++ pyReplace pat rep b := by
  rcases pat with _ | ⟨p, ps⟩
  · exact absurd rfl hpat
  · unfold pyReplace
    have hlen : ((p :: ps) ++ b).length = (ps.length + b.length) + 1 := by
      simp [List.length_append]
    rw [hlen]
    show (if !(p :: ps).isEmpty && listPre (p :: ps) ((p :: ps) ++ b) then
        rep ++ pyReplaceFuel (p :: ps) rep (ps.length + b.length)
          (((p :: ps) ++ b).drop (p :: ps).length)
      else p :: pyReplaceFuel (p :: ps) rep (ps.length + b.length) (ps ++ b)) =
      rep ++ pyReplaceFuel (p :: ps) rep b.length b
    rw [if_pos, List.drop_left,
      pyReplaceFuel_fuel_irrel (p :: ps) rep (ps.length + b.length) b b.length
        (by omega) (Nat.le_refl _)]
    simp only [List.isEmpty_cons, Bool.not_false, Bool.true_and]
    exact (listPre_iff (p :: ps) ((p :: ps) ++ b)).mpr ⟨b, rfl⟩

/-- Claim C8: with an empty extracted name the reply is unchanged; with a
nonempty name the three preset nicknames are each replaced in turn by
exact case-sensitive, leftmost-first, non-overlapping substring
replacement (characterized by the no-occurrence and head-occurrence laws
of `pyReplace`); the claimed concrete example rewrites "Hey Cutie, how
are you?" to "Hey Jay, how are you?". -/
theorem replace_preset_nickname_spec :
    (∀ r : String, replace_preset_nickname r "" = r) ∧
    (∀ r n : String, n ≠ "" →
      replace_preset_nickname r n =
        pyReplaceS (pyReplaceS (pyReplaceS r "Cutie" n) "Babe" n) "Good Looking" n) ∧
    (∀ pat rep s : List Char, listContains pat s = false → pyReplace pat rep s = s) ∧
    (∀ pat rep b : List Char, pat ≠ [] →
      pyReplace pat rep (pat ++ b) = rep ++ pyReplace pat rep b) ∧
    replace_preset_nickname "Hey Cutie, how are you?" "Jay" = "Hey Jay, how are you?" := by
  refine ⟨?_, ?_, ?_, pyReplace_head_occ, by decide⟩
  · intro r
    rfl
  · intro r n hn
    simp only [replace_preset_nickname, preset_nicknames, List.foldl]
    rw [if_neg (by simpa using hn)]
  · intro pat rep s hno
    exact pyReplaceFuel_no_occ pat rep s.length s hno

/-- Witness for C8: the sequential-replacement description applied at a
concrete reply and name. -/
theorem replace_preset_nickname_spec_witness :
    replace_preset_nickname "Babe, hi Cutie" "Jay" =
      pyReplaceS (pyReplaceS (pyReplaceS "Babe, hi Cutie" "Cutie" "Jay") "Babe" "Jay")
        "Good Looking" "Jay" :=
  replace_preset_nickname_spec.2.1 "Babe, hi Cutie" "Jay" (by decide)

/-! ## Reply generation (brain.py 226-356) -/

/-- Python `re.sub` of asterisk, one-or-more non-asterisks, asterisk with the
empty string (brain.py line 338), with fuel bounded by the input
length: a lone or doubled asterisk is kept and scanning moves on, a
completed span is dropped together with its delimiters. -/
def stripStarsFuel : Nat → List Char → List Char
  | _, [] => []
  | 0, s => s
  | fuel + 1, c :: rest =>
    if c == '*' then
      let inner := rest.takeWhile (fun x => x != '*')
      if !inner.isEmpty && !(rest.drop inner.length).isEmpty then
        stripStarsFuel fuel (rest.drop (inner.length + 1))
      else c :: stripStarsFuel fuel rest
    else c :: stripStarsFuel fuel rest

/-- Stage-direction stripping on strings. -/
def stripStars (s : String) : String := String.mk (stripStarsFuel s.data.length s.data)

/-- Python `re.sub` of one-or-more whitespace with a single space (brain.py
line 340), fueled by the input length. -/
def collapseWsFuel : Nat → List Char → List Char
  | _, [] => []
  | 0, s => s
  | fuel + 1, c :: rest =>
    if pyWs c then ' ' :: collapseWsFuel fuel (rest.dropWhile pyWs)
    else c :: collapseWsFuel fuel rest

/-- Whitespace collapsing on strings. -/
def collapseWsS (s : String) : String := String.mk (collapseWsFuel s.data.length s.data)

/-- brain.py lines 335-340: strip stage directions, collapse whitespace,
trim. -/
def post_process (raw : String) : String := pystripS (collapseWsS (stripStars raw))

/-- brain.py line 324: the non-200 fallback. -/
def fallback_http : String := "Babe, my phone is acting up... try again in a sec? ;)"

/-- brain.py line 350: the timeout fallback. -/
def fallback_timeout : String := "Babe, my phone is taking forever to load... try again later? ;)"

/-- brain.py line 353: the connection-error fallback. -/
def fallback_conn : String := "Babe, my internet is acting up... try again in a bit? ;)"

/-- brain.py line 356: the generic exception fallback. -/
def fallback_generic : String := "Babe, something went wrong with my phone... try again soon? ;)"

/-- The fixed in-persona fallback strings. -/
def fallback_strings : List String :=
  [fallback_http, fallback_timeout, fallback_conn, fallback_generic]

/-- brain.py get_safe_response: `random.choice` over the resolved safe
response list (the configured list, or the hard-coded defaults when the
configuration omits the key).  The random draw is abstracted as the
index `pick`; `none` models the IndexError `random.choice` raises on an
empty list. -/
def get_safe_response (cfg : GenConfig) (pick : Nat) : Option String :=
  cfg.safe_responses.get? (pick % cfg.safe_responses.length)

/-- The reply produced on a safety trigger: the chosen safe response, or
— should choosing raise on an empty configured list — the generic
exception fallback of the surrounding try block. -/
def safe_reply (cfg : GenConfig) (pick : Nat) : String :=
  (get_safe_response cfg pick).getD fallback_generic

/-- Result of one generate_sarah_response run, together with whether the
completion backend was called. -/
structure GenOutcome where
  reply : String
  backendCalled : Bool
deriving DecidableEq, Repr

/-- Did the backend call fail as seen by generate_sarah_response: a
non-200 status, a timeout, a connection error, or any other exception. -/
def isBackendFailure : BackendResult → Bool
  | .ok status _ => status != 200
  | _ => true

/-- brain.py generate_sarah_response, with the completion call abstracted
as `backend` (a function of the assembled message list) and the safe
response draw as `pick`: extract the fan name; return a safe response on
a blocked inbound message without calling the backend; otherwise
assemble the system instruction and history and call the backend; map
failures to the fixed fallbacks; re-filter the raw reply, post-process
it, and substitute preset nicknames when a name was extracted. -/
def generateRun (cfg : GenConfig) (backend : List ChatMsg → BackendResult) (pick : Nat)
    (fan_message fan_lore : String) (chat_history : List ChatMsg) : GenOutcome :=
  let fan_name := extract_fan_name fan_message fan_lore chat_history
  if contains_blocked_content cfg.blocked_topics fan_message then
    match get_safe_response cfg pick with
    | some s => GenOutcome.mk s false
    | none => GenOutcome.mk fallback_generic false
  else
    let fmt := formatted_messages (mk_system_instr cfg fan_lore) chat_history fan_message
    match backend fmt with
    | .timeout => GenOutcome.mk fallback_timeout true
    | .connError => GenOutcome.mk fallback_conn true
    | .exc => GenOutcome.mk fallback_generic true
    | .ok status content =>
      if status ≠ 200 then GenOutcome.mk fallback_http true
      else if contains_blocked_content cfg.blocked_topics content then
        (match get_safe_response cfg pick with
         | some s => GenOutcome.mk s true
         | none => GenOutcome.mk fallback_generic true)
      else
        GenOutcome.mk
          (if fan_name ≠ "" then replace_preset_nickname (post_process content) fan_name
           else post_process content) true

/-- The reply returned to the pipeline. -/
def generate_sarah_response (cfg : GenConfig) (backend : List ChatMsg → BackendResult)
    (pick : Nat) (fan_message fan_lore : String) (chat_history : List ChatMsg) : String :=
  (generateRun cfg backend pick fan_message fan_lore chat_history).reply

/-- Branch equation for `generateRun`, folding the safe-response draw
into `safe_reply`. -/
theorem generateRun_eq (cfg : GenConfig) (backend : List ChatMsg → BackendResult)
    (pick : Nat) (m l : String) (h : List ChatMsg) :
    generateRun cfg backend pick m l h =
      if contains_blocked_content cfg.blocked_topics m then
        GenOutcome.mk (safe_reply cfg pick) false
      else
        match backend (formatted_messages (mk_system_instr cfg l) h m) with
        | .timeout => GenOutcome.mk fallback_timeout true
        | .connError => GenOutcome.mk fallback_conn true
        | .exc => GenOutcome.mk fallback_generic true
        | .ok status content =>
          if status ≠ 200 then GenOutcome.mk fallback_http true
          else if contains_blocked_content cfg.blocked_topics content then
            GenOutcome.mk (safe_reply cfg pick) true
          else
            GenOutcome.mk
              (if extract_fan_name m l h ≠ "" then
                replace_preset_nickname (post_process content) (extract_fan_name m l h)
               else post_process content) true := by
  cases hblk : contains_blocked_content cfg.blocked_topics m with
  | true =>
    simp only [generateRun, hblk, if_true]
    cases hg : get_safe_response cfg pick <;> simp [safe_reply, hg]
  | false =>
    simp only [generateRun, hblk]
    norm_num
    cases hb : backend (formatted_messages (mk_system_instr cfg l) h m) with
    | ok status content =>
      dsimp only
      by_cases hs : status = 200
      · subst hs
        rw [if_pos rfl, if_pos rfl]
        cases hraw : contains_blocked_content cfg.blocked_topics content with
        | true =>
          simp only [hraw, if_true]
          cases hg : get_safe_response cfg pick <;> simp [safe_reply, hg]
        | false => simp [hraw]
      · rw [if_neg hs, if_neg hs]
    | timeout => rfl
    | connError => rfl
    | exc => rfl

/-- On a nonempty configured list the safe-response draw always lands on
a list element. -/
theorem get_safe_response_some (cfg : GenConfig) (pick : Nat)
    (h1 : cfg.safe_responses ≠ []) :
    ∃ s, get_safe_response cfg pick = some s ∧ s ∈ cfg.safe_responses := by
  cases hg : get_safe_response cfg pick with
  | some s => exact ⟨s, rfl, List.get?_mem hg⟩
  | none =>
    exfalso
    have hlen : 0 < cfg.safe_responses.length := List.length_pos.mpr h1
    have := List.get?_eq_none.mp hg
    exact absurd this (Nat.not_le.mpr (Nat.mod_lt _ hlen))

theorem safe_reply_ne_empty (cfg : GenConfig) (pick : Nat)
    (h1 : cfg.safe_responses ≠ []) (h2 : ∀ s ∈ cfg.safe_responses, s ≠ "") :
    safe_reply cfg pick ≠ "" := by
  obtain ⟨s, hs, hmem⟩ := get_safe_response_some cfg pick h1
  rw [safe_reply, hs]
  exact h2 s hmem

/-- Claim C3: a flagged inbound message yields a safe response
immediately, with the backend never called and the outcome independent
of the backend; and a flagged raw reply from a successful backend call
is answered with a safe response instead of the raw reply, with no
post-processing applied to the raw text. -/
theorem generate_safety_gates :
    (∀ (cfg : GenConfig) (backend : List ChatMsg → BackendResult) (pick : Nat)
      (m l : String) (h : List ChatMsg),
      contains_blocked_content cfg.blocked_topics m = true →
      generateRun cfg backend pick m l h = GenOutcome.mk (safe_reply cfg pick) false) ∧
    (∀ (cfg : GenConfig) (backend : List ChatMsg → BackendResult) (pick : Nat)
      (m l : String) (h : List ChatMsg) (raw : String),
      contains_blocked_content cfg.blocked_topics m = false →
      backend (formatted_messages (mk_system_instr cfg l) h m) = .ok 200 raw →
      contains_blocked_content cfg.blocked_topics raw = true →
      generate_sarah_response cfg backend pick m l h = safe_reply cfg pick) := by
  constructor
  · intro cfg backend pick m l h hblk
    rw [generateRun_eq, if_pos hblk]
  · intro cfg backend pick m l h raw hblk hb hraw
    rw [generate_sarah_response, generateRun_eq, if_neg (by simp [hblk]), hb]
    dsimp only
    rw [if_neg (by simp), if_pos hraw]

/-- Witness for C3: a message hitting a blocked topic is answered with
the configured safe response and no backend call, whatever the backend
would have returned. -/
theorem generate_safety_gates_witness :
    generateRun (GenConfig.mk ["drugs"] ["nope"] "p" "d" "r")
      (fun _ => BackendResult.exc) 0 "wanna buy drugs" "" [] =
      GenOutcome.mk (safe_reply (GenConfig.mk ["drugs"] ["nope"] "p" "d" "r") 0) false :=
  generate_safety_gates.1 (GenConfig.mk ["drugs"] ["nope"] "p" "d" "r")
    (fun _ => BackendResult.exc) 0 "wanna buy drugs" "" [] (by decide)

/-- Claim C4: every completion-backend failure — timeout, connection
error, non-200 status, or any other exception — produces one of the
fixed in-persona fallback strings; the embedded function is total, so no
error propagates. -/
theorem generate_backend_failure_fallback :
    ∀ (cfg : GenConfig) (backend : List ChatMsg → BackendResult) (pick : Nat)
      (m l : String) (h : List ChatMsg),
      contains_blocked_content cfg.blocked_topics m = false →
      isBackendFailure (backend (formatted_messages (mk_system_instr cfg l) h m)) = true →
      generate_sarah_response cfg backend pick m l h ∈ fallback_strings := by
  intro cfg backend pick m l h hblk hfail
  rw [generate_sarah_response, generateRun_eq, if_neg (by simp [hblk])]
  cases hb : backend (formatted_messages (mk_system_instr cfg l) h m) with
  | timeout => simp [fallback_strings]
  | connError => simp [fallback_strings]
  | exc => simp [fallback_strings]
  | ok status content =>
    rw [hb] at hfail
    have hs : status ≠ 200 := by simpa [isBackendFailure] using hfail
    dsimp only
    rw [if_pos hs]
    simp [fallback_strings]

/-- Witness for C4: a 500 from the backend yields an in-persona
fallback. -/
theorem generate_backend_failure_fallback_witness :
    generate_sarah_response (GenConfig.mk [] ["ok"] "p" "d" "r")
      (fun _ => BackendResult.ok 500 "oops") 0 "hi" "" [] ∈ fallback_strings :=
  generate_backend_failure_fallback (GenConfig.mk [] ["ok"] "p" "d" "r")
    (fun _ => BackendResult.ok 500 "oops") 0 "hi" "" [] (by decide) (by decide)

theorem eq_empty_of_data_eq_nil {s : String} (h : s.data = []) : s = "" := by
  cases s with
  | mk d =>
    simp only at h
    rw [h]

theorem pyReplaceFuel_eq_nil (pat rep : List Char) (hrep : rep ≠ []) :
    ∀ (fuel : Nat) (s : List Char), pyReplaceFuel pat rep fuel s = [] → s = [] := by
  intro fuel
  induction fuel with
  | zero =>
    intro s h
    cases s with
    | nil => rfl
    | cons c t => exact absurd h (by simp [pyReplaceFuel])
  | succ fuel ih =>
    intro s h
    cases s with
    | nil => rfl
    | cons c rest =>
      exfalso
      rw [show pyReplaceFuel pat rep (fuel + 1) (c :: rest) =
          (if !pat.isEmpty && listPre pat (c :: rest) then
            rep ++ pyReplaceFuel pat rep fuel ((c :: rest).drop pat.length)
          else c :: pyReplaceFuel pat rep fuel rest) from rfl] at h
      by_cases hcond : (!pat.isEmpty && listPre pat (c :: rest)) = true
      · rw [if_pos hcond] at h
        exact hrep (List.append_eq_nil.mp h).1
      · rw [if_neg hcond] at h
        exact List.cons_ne_nil c _ h

theorem pyReplaceS_eq_empty (s pat rep : String) (hrep : rep ≠ "")
    (h : pyReplaceS s pat rep = "") : s = "" := by
  have hl : pyReplace pat.data rep.data s.data = [] := congrArg String.data h
  exact eq_empty_of_data_eq_nil
    (pyReplaceFuel_eq_nil pat.data rep.data (data_ne_nil_of_ne_empty hrep) _ _ hl)

theorem replace_preset_nickname_eq_empty (r n : String) (hn : n ≠ "")
    (h : replace_preset_nickname r n = "") : r = "" := by
  rw [replace_preset_nickname, if_neg (by simpa using hn)] at h
  simp only [preset_nicknames, List.foldl] at h
  exact pyReplaceS_eq_empty _ _ _ hn
    (pyReplaceS_eq_empty _ _ _ hn (pyReplaceS_eq_empty _ _ _ hn h))

/-- Counterexample to claim C5 as stated: a successful backend reply made
entirely of a stage-direction span is post-processed to the empty
string, so the returned reply is empty. -/
theorem generate_reply_empty_counterexample :
    generate_sarah_response (GenConfig.mk [] ["ok"] "p" "d" "r")
      (fun _ => BackendResult.ok 200 "*blushes*") 0 "hi" "" [] = "" := by
  decide

/-- Claim C5 (amended): the embedded generate_sarah_response is a total
function — it never raises — and, whenever the configured safe responses
are nonempty strings, its reply can be empty only on the one path where
the backend succeeded with an unflagged raw reply whose post-processing
(stage-direction stripping, whitespace collapsing, trimming) left the
empty string; every other branch returns a non-empty string. -/
theorem generate_reply_empty_only_from_postprocess :
    ∀ (cfg : GenConfig) (backend : List ChatMsg → BackendResult) (pick : Nat)
      (m l : String) (h : List ChatMsg),
      cfg.safe_responses ≠ [] →
      (∀ s ∈ cfg.safe_responses, s ≠ "") →
      generate_sarah_response cfg backend pick m l h = "" →
      ∃ raw, backend (formatted_messages (mk_system_instr cfg l) h m) = .ok 200 raw ∧
        contains_blocked_content cfg.blocked_topics raw = false ∧
        post_process raw = "" := by
  intro cfg backend pick m l h h1 h2 hempty
  rw [generate_sarah_response, generateRun_eq] at hempty
  by_cases hblk : contains_blocked_content cfg.blocked_topics m = true
  · rw [if_pos hblk] at hempty
    exact absurd hempty (safe_reply_ne_empty cfg pick h1 h2)
  · rw [if_neg hblk] at hempty
    cases hb : backend (formatted_messages (mk_system_instr cfg l) h m) with
    | timeout =>
      rw [hb] at hempty
      dsimp only at hempty
      exact absurd hempty (by decide)
    | connError =>
      rw [hb] at hempty
      dsimp only at hempty
      exact absurd hempty (by decide)
    | exc =>
      rw [hb] at hempty
      dsimp only at hempty
      exact absurd hempty (by decide)
    | ok status content =>
      rw [hb] at hempty
      dsimp only at hempty
      by_cases hs : status = 200
      · subst hs
        rw [if_neg (by simp)] at hempty
        by_cases hraw : contains_blocked_content cfg.blocked_topics content = true
        · rw [if_pos hraw] at hempty
          exact absurd hempty (safe_reply_ne_empty cfg pick h1 h2)
        · rw [if_neg hraw] at hempty
          refine ⟨content, rfl, by simpa using hraw, ?_⟩
          by_cases hname : extract_fan_name m l h = ""
          · rw [if_neg (by simpa using hname)] at hempty
            exact hempty
          · rw [if_pos (by simpa using hname)] at hempty
            exact replace_preset_nickname_eq_empty _ _ hname hempty
      · rw [if_pos hs] at hempty
        exact absurd hempty (by decide)

/-- Witness for C5 (amended): with a concrete backend whose raw reply is
a lone stage direction, the empty reply is traced back to the
post-processing of that raw reply. -/
theorem generate_reply_empty_only_from_postprocess_witness :
    ∃ raw, (fun _ : List ChatMsg => BackendResult.ok 200 "*hugs*")
        (formatted_messages (mk_system_instr (GenConfig.mk [] ["ok"] "p" "d" "r") "") [] "hi") =
        BackendResult.ok 200 raw ∧
      contains_blocked_content [] raw = false ∧
      post_process raw = "" :=
  generate_reply_empty_only_from_postprocess (GenConfig.mk [] ["ok"] "p" "d" "r")
    (fun _ => BackendResult.ok 200 "*hugs*") 0 "hi" "" []
    (by decide) (by decide) (by decide)

end SarahEngine
